import Mathlib

/-!
Verification development for the TUI streaming core of the
`agent-sdk-interactive` repository (file `src/tui/app.ts`).

The definitions below are a shallow embedding of the source:
`MessageQueue`, `StreamingText`, `ToolExecution`, `formatToolInput`,
and the `TUIApp` event handlers (`handleStreamEvent`, `handleMessage`,
`handleSubmit`, `showToolStart`, `showToolComplete`, `markAllToolsDone`,
`appendStreamingText`, ...).  TypeScript objects become structures,
`Map` becomes an association list with `Map`-faithful operations,
`JSON.parse`'s try/catch becomes an `Option`-returning parser, and the
mutable `TUIApp` fields become one explicit state record threaded
through the handlers.  UI-library side effects (`tui.requestRender`,
terminal writes, ANSI theme colorization) are not part of the state:
they do not feed back into any of the logic under study.
-/

/-! ## JSON values and a model of `JSON.parse`

The source accumulates tool input as a raw string and runs
`JSON.parse` on it inside try/catch (`content_block_stop` handling);
a thrown parse error becomes `undefined`.  We model parsed values with
`Json` and the parse as `parseJson : String → Option Json`, a strict
JSON recursive-descent parser (numbers keep their source numeral; a
`\u` escape denoting a lone UTF-16 surrogate is rejected rather than
producing an unpaired surrogate, which Lean strings cannot hold). -/

inductive Json where
  | null
  | bool (b : Bool)
  | num (raw : String)
  | str (s : String)
  | arr (elems : List Json)
  | obj (fields : List (String × Json))
deriving Repr

def isJsonWs (c : Char) : Bool :=
  c = ' ' || c = '\t' || c = '\n' || c = '\r'

def skipWs : List Char → List Char
  | [] => []
  | c :: rest => if isJsonWs c then skipWs rest else c :: rest

def hexVal (c : Char) : Option Nat :=
  if '0' ≤ c ∧ c ≤ '9' then some (c.toNat - 48)
  else if 'a' ≤ c ∧ c ≤ 'f' then some (c.toNat - 87)
  else if 'A' ≤ c ∧ c ≤ 'F' then some (c.toNat - 55)
  else none

/-- Match a literal character sequence at the head of the input. -/
def dropLit : List Char → List Char → Option (List Char)
  | [], cs => some cs
  | l :: ls, c :: cs => if c = l then dropLit ls cs else none
  | _ :: _, [] => none

/-- Parse the body of a JSON string (the opening quote already
consumed), handling the escape sequences accepted by `JSON.parse`. -/
def parseStringAux : Nat → List Char → List Char → Option (String × List Char)
  | 0, _, _ => none
  | _ + 1, _, [] => none
  | fuel + 1, acc, c :: rest =>
    if c = '\x22' then some (String.mk acc.reverse, rest)
    else if c = '\x5c' then
      match rest with
      | '\x22' :: rest2 => parseStringAux fuel ('\x22' :: acc) rest2
      | '\x5c' :: rest2 => parseStringAux fuel ('\x5c' :: acc) rest2
      | '/' :: rest2 => parseStringAux fuel ('/' :: acc) rest2
      | 'b' :: rest2 => parseStringAux fuel ('\x08' :: acc) rest2
      | 'f' :: rest2 => parseStringAux fuel ('\x0c' :: acc) rest2
      | 'n' :: rest2 => parseStringAux fuel ('\n' :: acc) rest2
      | 'r' :: rest2 => parseStringAux fuel ('\r' :: acc) rest2
      | 't' :: rest2 => parseStringAux fuel ('\t' :: acc) rest2
      | 'u' :: h1 :: h2 :: h3 :: h4 :: rest2 =>
        match hexVal h1, hexVal h2, hexVal h3, hexVal h4 with
        | some a, some b, some c2, some d =>
          let n := a * 4096 + b * 256 + c2 * 16 + d
          if n.isValidChar then parseStringAux fuel (Char.ofNat n :: acc) rest2
          else none
        | _, _, _, _ => none
      | _ => none
    else if c.toNat < 32 then none
    else parseStringAux fuel (c :: acc) rest

/-- Parse a JSON number, returning its source numeral. -/
def parseNumber (cs : List Char) : Option (String × List Char) :=
  let (sign, cs1) :=
    match cs with
    | '-' :: rest => (['-'], rest)
    | _ => (([] : List Char), cs)
  match cs1 with
  | [] => none
  | c :: _ =>
    if ¬ c.isDigit then none
    else
      let (intPart, cs2) :=
        if c = '0' then ([c], cs1.tail)
        else cs1.span Char.isDigit
      let (fracPart, cs3) :=
        match cs2 with
        | '.' :: d :: rest =>
          if d.isDigit then
            let (ds, r) := (d :: rest).span Char.isDigit
            ('.' :: ds, r)
          else ([], cs2)
        | _ => (([] : List Char), cs2)
      let (expPart, cs4) :=
        match cs3 with
        | e :: rest =>
          if e = 'e' ∨ e = 'E' then
            let (sgn, rest2) :=
              match rest with
              | s :: r => if s = '+' ∨ s = '-' then ([s], r) else ([], rest)
              | [] => (([] : List Char), rest)
            match rest2 with
            | d :: _ =>
              if d.isDigit then
                let (ds, r) := rest2.span Char.isDigit
                (e :: (sgn ++ ds), r)
              else ([], cs3)
            | [] => ([], cs3)
          else ([], cs3)
        | [] => (([] : List Char), cs3)
      let danglingDot : Bool :=
        match cs2 with
        | '.' :: _ => fracPart.isEmpty
        | _ => false
      if danglingDot then none
      else some (String.mk (sign ++ intPart ++ fracPart ++ expPart), cs4)

mutual

def parseValue : Nat → List Char → Option (Json × List Char)
  | 0, _ => none
  | fuel + 1, cs =>
    match skipWs cs with
    | [] => none
    | c :: rest =>
      if c = 'n' then
        match dropLit ['u', 'l', 'l'] rest with
        | some r => some (Json.null, r)
        | none => none
      else if c = 't' then
        match dropLit ['r', 'u', 'e'] rest with
        | some r => some (Json.bool true, r)
        | none => none
      else if c = 'f' then
        match dropLit ['a', 'l', 's', 'e'] rest with
        | some r => some (Json.bool false, r)
        | none => none
      else if c = '\x22' then
        match parseStringAux (rest.length + 1) [] rest with
        | some (s, r) => some (Json.str s, r)
        | none => none
      else if c = '\x7b' then
        match skipWs rest with
        | '\x7d' :: r => some (Json.obj [], r)
        | cs2 => parseMembers fuel cs2 []
      else if c = '[' then
        match skipWs rest with
        | ']' :: r => some (Json.arr [], r)
        | cs2 => parseElems fuel cs2 []
      else
        match parseNumber (c :: rest) with
        | some (raw, r) => some (Json.num raw, r)
        | none => none

/-- Parse the members of a JSON object after `{` (first key expected). -/
def parseMembers : Nat → List Char → List (String × Json) →
    Option (Json × List Char)
  | 0, _, _ => none
  | fuel + 1, cs, acc =>
    match skipWs cs with
    | '\x22' :: rest =>
      match parseStringAux (rest.length + 1) [] rest with
      | some (k, r1) =>
        (match skipWs r1 with
         | ':' :: r2 =>
           match parseValue fuel r2 with
           | some (v, r3) =>
             (match skipWs r3 with
              | ',' :: r4 => parseMembers fuel r4 ((k, v) :: acc)
              | '\x7d' :: r4 => some (Json.obj ((k, v) :: acc).reverse, r4)
              | _ => none)
           | none => none
         | _ => none)
      | none => none
    | _ => none

/-- Parse the elements of a JSON array after `[` (first element expected). -/
def parseElems : Nat → List Char → List Json → Option (Json × List Char)
  | 0, _, _ => none
  | fuel + 1, cs, acc =>
    match parseValue fuel cs with
    | some (v, r1) =>
      (match skipWs r1 with
       | ',' :: r2 => parseElems fuel r2 (v :: acc)
       | ']' :: r2 => some (Json.arr (v :: acc).reverse, r2)
       | _ => none)
    | none => none

end

/-- Model of `JSON.parse(s)` under try/catch: `none` when parsing throws. -/
def parseJson (s : String) : Option Json :=
  let cs := s.toList
  match parseValue (4 * cs.length + 8) cs with
  | some (v, rest) => if skipWs rest = [] then some v else none
  | none => none

example : parseJson ("\x7b\x22file_path\x22:\x22a.ts\x22\x7d")
    = some (Json.obj [("file_path", Json.str ("a.ts"))]) := by rfl

example : parseJson ("\x7b\x22file_") = none := by rfl

example : parseJson ("") = none := by rfl

example : parseJson (" [1, true, null] ")
    = some (Json.arr [Json.num ("1"), Json.bool true, Json.null]) := by rfl

/-! ## Tool records and display formatting

`ToolExecution` components carry a tool name, a lifecycle status
(`running` / `done` / `error`) and the (optionally parsed) input.
Their rendered line is `statusIcon icon name[: inputStr]`; the theme's
ANSI colorization wrappers are identity on the text content and are
not modeled. -/

inductive ToolStatus where
  | running
  | done
  | error
deriving DecidableEq, Repr

structure ToolRec where
  name : String
  status : ToolStatus
  input : Option Json
deriving Repr

/-- The `TOOL_ICONS` record from the source. -/
def TOOL_ICONS : List (String × String) :=
  [("Read", "📖"), ("Write", "✏️"), ("Edit", "📝"), ("MultiEdit", "📝"),
   ("Bash", "💻"), ("Glob", "🔍"), ("Grep", "🔎"), ("Task", "🤖"),
   ("WebFetch", "🌐"), ("WebSearch", "🔍"), ("TodoWrite", "📋"),
   ("AskUserQuestion", "❓"), ("NotebookEdit", "📓")]

/-- JavaScript truthiness of a parsed JSON value (a `JSON.parse`
result is never `NaN`, so a number is falsy exactly when its numeral
is zero). -/
def numRawIsZero (raw : String) : Bool :=
  (raw.toList.takeWhile (fun c => c ≠ 'e' ∧ c ≠ 'E')).all
    (fun c => !c.isDigit || c = '0')

def jsTruthy : Json → Bool
  | Json.null => false
  | Json.bool b => b
  | Json.num raw => !numRawIsZero raw
  | Json.str s => s != ""
  | Json.arr _ => true
  | Json.obj _ => true

mutual

/-- JavaScript `String(v)` on a parsed JSON value.  Number-to-string
conversion is approximated by the source numeral (exact for the
integer and plain-decimal numerals the tools use). -/
def jsToString : Json → String
  | Json.null => "null"
  | Json.bool b => if b then "true" else "false"
  | Json.num raw => raw
  | Json.str s => s
  | Json.arr es => jsToStringList es
  | Json.obj _ => "[object Object]"

/-- `Array.prototype.toString`: elements joined with commas. -/
def jsToStringList : List Json → String
  | [] => ""
  | [v] => jsToString v
  | v :: rest => jsToString v ++ "," ++ jsToStringList rest

end

/-- Property read `obj.k` on a parsed value: only objects have named
properties (for duplicate keys `JSON.parse` keeps the last value). -/
def jsGetProp (v : Json) (k : String) : Option Json :=
  match v with
  | Json.obj fields => fields.reverse.lookup k
  | _ => none

/-- `obj.k ? String(obj.k) : ""` — the per-field pattern used
throughout `formatToolInput`. -/
def strProp (v : Json) (k : String) : String :=
  match jsGetProp v k with
  | some w => if jsTruthy w then jsToString w else ""
  | none => ""

/-- JS `s.slice(0, n)` (UTF-16 length approximated by codepoints,
exact for the ASCII commands at issue). -/
def jsSlice (s : String) (n : Nat) : String :=
  String.mk (s.toList.take n)

/-- `formatToolInput` from the source.  The leading
`!input || typeof input !== "object"` guard admits exactly objects and
arrays (`typeof null` is `"object"` but `null` is falsy); property
reads on an array yield `undefined`, hence `""`. -/
def formatToolInput (toolName : String) (input : Option Json) : String :=
  match input with
  | some (Json.obj fields) => formatToolInputObj toolName (Json.obj fields)
  | some (Json.arr es) => formatToolInputObj toolName (Json.arr es)
  | _ => ""
where
  formatToolInputObj (toolName : String) (v : Json) : String :=
    if toolName = "Read" then strProp v ("file_path")
    else if toolName = "Write" ∨ toolName = "Edit" ∨ toolName = "MultiEdit" then
      strProp v ("file_path")
    else if toolName = "Bash" then
      let cmd := strProp v ("command")
      if cmd != "" then (if cmd.length > 60 then jsSlice cmd 57 ++ "..." else cmd)
      else ""
    else if toolName = "Glob" then strProp v ("pattern")
    else if toolName = "Grep" then strProp v ("pattern")
    else if toolName = "WebFetch" then strProp v ("url")
    else if toolName = "WebSearch" then strProp v ("query")
    else if toolName = "Task" then strProp v ("description")
    else ""

def statusIconOf : ToolStatus → String
  | ToolStatus.running => "⟳"
  | ToolStatus.done => "✓"
  | ToolStatus.error => "✗"

/-- The single display line a `ToolExecution` renders
(`ToolExecution.updateLines`), minus ANSI colorization. -/
def toolLine (t : ToolRec) : String :=
  let icon := (TOOL_ICONS.lookup t.name).getD ("⚙️")
  let inputStr := formatToolInput t.name t.input
  let line := statusIconOf t.status ++ " " ++ icon ++ " " ++ t.name
  if inputStr != "" then line ++ ": " ++ inputStr else line

example :
    toolLine ⟨"Read", ToolStatus.running,
      some (Json.obj [("file_path", Json.str ("a.ts"))])⟩
    = "⟳ 📖 Read: a.ts" := by rfl

/-! ## The outbound message queue (`MessageQueue`)

The source class keeps a buffered `queue`, an array of promise
`resolvers` for consumers whose `next()` found nothing buffered, a
`done` flag and the session id.  We model resolvers by abstract numeric
tokens handed out in FIFO order, and record every resolved promise in
a `delivered` log (token together with the delivered iterator result),
so that "a waiting consumer received the sentinel exactly once" is a
statement about that log. -/

structure SDKUserMessage where
  session_id : String
  content : String
deriving DecidableEq, Repr

/-- The envelope `push` builds (the constant `type: "user"`,
`role: "user"` and `parent_tool_use_id: null` fields are omitted). -/
def mkMessage (sessionId content : String) : SDKUserMessage :=
  ⟨sessionId, content⟩

inductive IterResult where
  | value (m : SDKUserMessage)
  | sentinel
deriving DecidableEq, Repr

structure MQState where
  queue : List SDKUserMessage
  resolvers : List Nat
  done : Bool
  sessionId : String
  delivered : List (Nat × IterResult)
  nextTok : Nat
deriving DecidableEq, Repr

def mqInit : MQState := ⟨[], [], false, "", [], 0⟩

def mqSetSessionId (id : String) (st : MQState) : MQState :=
  { st with sessionId := id }

/-- `MessageQueue.push`: dropped once `done`; otherwise delivered to
the first waiting resolver, or buffered. -/
def mqPush (content : String) (st : MQState) : MQState :=
  if st.done then st
  else
    let m := mkMessage st.sessionId content
    match st.resolvers with
    | r :: rest =>
      { st with resolvers := rest,
                delivered := st.delivered ++ [(r, IterResult.value m)] }
    | [] => { st with queue := st.queue ++ [m] }

/-- `MessageQueue.close`: set `done`, resolve every waiting consumer
with the end-of-stream sentinel, clear the resolver list. -/
def mqClose (st : MQState) : MQState :=
  { st with done := true,
            delivered :=
              st.delivered ++ st.resolvers.map (fun r => (r, IterResult.sentinel)),
            resolvers := [] }

inductive NextOutcome where
  | ready (r : IterResult)
  | pending (tok : Nat)
deriving DecidableEq, Repr

/-- The async iterator's `next()`: immediate result from the buffer,
immediate sentinel when closed and drained, otherwise a pending
promise whose resolver is queued. -/
def mqNext (st : MQState) : NextOutcome × MQState :=
  match st.queue with
  | m :: rest => (NextOutcome.ready (IterResult.value m), { st with queue := rest })
  | [] =>
    if st.done then (NextOutcome.ready IterResult.sentinel, st)
    else (NextOutcome.pending st.nextTok,
          { st with resolvers := st.resolvers ++ [st.nextTok],
                    nextTok := st.nextTok + 1 })

/-! ### Interleaved producer/consumer runs

`MQOp` is one interleaving step (a producer `push` or a consumer
`next`).  `runOps` drives the queue and chronologically logs every
message handed to the consumer, whether through an immediate `next()`
result or through a resolver fulfilled by `push`. -/

inductive MQOp where
  | push (content : String)
  | next
deriving DecidableEq, Repr

/-- The messages a sequence of operations submits (in order). -/
def opsMessages (sid : String) : List MQOp → List SDKUserMessage
  | [] => []
  | MQOp.push c :: rest => mkMessage sid c :: opsMessages sid rest
  | MQOp.next :: rest => opsMessages sid rest

def runOps : List MQOp → MQState → List SDKUserMessage →
    MQState × List SDKUserMessage
  | [], st, log => (st, log)
  | MQOp.push c :: rest, st, log =>
    runOps rest (mqPush c st)
      (log ++ (if st.resolvers.isEmpty then [] else [mkMessage st.sessionId c]))
  | MQOp.next :: rest, st, log =>
    runOps rest (mqNext st).2
      (log ++ (match (mqNext st).1 with
               | NextOutcome.ready (IterResult.value m) => [m]
               | _ => []))

/-! ## TUIApp state and transcript

`messagesContainer`'s children form the transcript.  A `ToolExecution`
(resp. `StreamingText`) component is aliased by both the transcript
and `activeTools` (resp. `currentStreaming`), so components live in
append-only stores (`toolStore`, `streamStore`) and both the
transcript and the trackers refer to them by store index. -/

inductive Node where
  | text (s : String)
  | markdown (s : String)
  | streamText (i : Nat)
  | tool (i : Nat)
  | loader
  | resultSummary (cost : Rat) (durationMs : Rat)
deriving DecidableEq, Repr

structure PendingTool where
  id : String
  name : String
  inputJson : String
deriving DecidableEq, Repr

structure TUIState where
  mq : MQState
  toolStore : List ToolRec
  streamStore : List String
  transcript : List Node
  activeTools : List (String × Nat)
  pendingToolUse : Option PendingTool
  currentStreaming : Option Nat
  loading : Bool
  sessionId : String
  totalCost : Rat
  stopped : Bool

/-- The state the `TUIApp` constructor produces. -/
def initialState : TUIState :=
  ⟨mqInit, [], [], [], [], none, none, false, "", 0, false⟩

/-- In-place update of a store entry (a mutation of the component
object shared by the transcript); out-of-range indices leave the
store unchanged. -/
def listModify (f : α → α) : Nat → List α → List α
  | _, [] => []
  | 0, x :: xs => f x :: xs
  | n + 1, x :: xs => x :: listModify f n xs

/-- `Map.get`: the value bound to a key (keys are unique). -/
def mapLookup (k : String) : List (String × Nat) → Option Nat
  | [] => none
  | (k2, v) :: rest => if k2 = k then some v else mapLookup k rest

/-- `Map.set`: rebind an existing key in place, else append. -/
def mapSet (k : String) (v : Nat) : List (String × Nat) → List (String × Nat)
  | [] => [(k, v)]
  | (k2, v2) :: rest =>
    if k2 = k then (k, v) :: rest else (k2, v2) :: mapSet k v rest

/-- `Map.delete` (keys are unique, so removing every binding of the
key coincides with removing the one entry). -/
def mapDelete (k : String) : List (String × Nat) → List (String × Nat)
  | [] => []
  | (k2, v) :: rest =>
    if k2 = k then mapDelete k rest else (k2, v) :: mapDelete k rest

def defTool : ToolRec := ⟨"", ToolStatus.running, none⟩

def setDone (t : ToolRec) : ToolRec := { t with status := ToolStatus.done }

/-- The fold `markAllToolsDone` performs over the active-tool map. -/
def markFold (ts : List ToolRec) (l : List (String × Nat)) : List ToolRec :=
  l.foldl (fun acc p => listModify setDone p.2 acc) ts

/-! ### TUIApp private methods -/

def addMessage (s : String) (st : TUIState) : TUIState :=
  { st with transcript := st.transcript ++ [Node.text s] }

def startLoading (st : TUIState) : TUIState :=
  if st.loading then st
  else { st with loading := true, transcript := st.transcript ++ [Node.loader] }

def stopLoading (st : TUIState) : TUIState :=
  if st.loading then
    { st with loading := false, transcript := st.transcript.erase Node.loader }
  else st

def startStreaming (st : TUIState) : TUIState :=
  let st1 := stopLoading st
  { st1 with streamStore := st1.streamStore ++ [""],
             transcript := st1.transcript ++ [Node.streamText st1.streamStore.length],
             currentStreaming := some st1.streamStore.length }

def appendStreamingText (s : String) (st : TUIState) : TUIState :=
  let st1 := if st.currentStreaming.isNone then startStreaming st else st
  match st1.currentStreaming with
  | some i => { st1 with streamStore := listModify (fun t => t ++ s) i st1.streamStore }
  | none => st1

def finishStreaming (st : TUIState) : TUIState :=
  { st with currentStreaming := none }

def showToolStart (toolUseId toolName : String) (st : TUIState) : TUIState :=
  { st with toolStore := st.toolStore ++ [⟨toolName, ToolStatus.running, none⟩],
            activeTools := mapSet toolUseId st.toolStore.length st.activeTools,
            transcript := st.transcript ++ [Node.tool st.toolStore.length] }

def showToolComplete (toolUseId : String) (isError : Bool) (st : TUIState) : TUIState :=
  match mapLookup toolUseId st.activeTools with
  | some i =>
    { st with
        toolStore :=
          listModify
            (fun t => { t with status :=
              if isError then ToolStatus.error else ToolStatus.done }) i st.toolStore,
        activeTools := mapDelete toolUseId st.activeTools }
  | none => st

def markAllToolsDone (st : TUIState) : TUIState :=
  if st.activeTools.isEmpty then st
  else { st with toolStore := markFold st.toolStore st.activeTools,
                 activeTools := [] }

/-! ### Stream events (`handleStreamEvent`) -/

structure ContentBlock where
  type : String
  id : Option String
  name : Option String
deriving DecidableEq, Repr

structure DeltaInfo where
  type : String
  text : Option String
  pJson : Option String
deriving DecidableEq, Repr

structure StreamEvent where
  type : String
  content_block : Option ContentBlock
  delta : Option DeltaInfo
deriving DecidableEq, Repr

/-- Truthiness of an optional string field (`undefined` and `""` are
falsy). -/
def optTruthy : Option String → Bool
  | some s => s != ""
  | none => false

def handleStreamEvent (ev : StreamEvent) (st : TUIState) : TUIState :=
  if ev.type == "content_block_start" then
    match ev.content_block with
    | some block =>
      if block.type == "text" then
        startStreaming (markAllToolsDone st)
      else if block.type == "tool_use" && optTruthy block.id && optTruthy block.name then
        let id := block.id.getD ("")
        let name := block.name.getD ("")
        let st2 := showToolStart id name (markAllToolsDone st)
        { st2 with pendingToolUse := some ⟨id, name, ""⟩ }
      else st
    | none => st
  else if ev.type == "content_block_delta" then
    match ev.delta with
    | some d =>
      if d.type == "text_delta" && optTruthy d.text then
        appendStreamingText (d.text.getD ("")) st
      else if d.type == "input_json_delta" && optTruthy d.pJson then
        match st.pendingToolUse with
        | some p =>
          { st with
              pendingToolUse := some ⟨p.id, p.name, p.inputJson ++ d.pJson.getD ("")⟩ }
        | none => st
      else st
    | none => st
  else if ev.type == "content_block_stop" then
    match st.pendingToolUse with
    | some p =>
      (match mapLookup p.id st.activeTools with
       | some i =>
         { st with
             toolStore :=
               listModify (fun t => { t with input := parseJson p.inputJson })
                 i st.toolStore,
             pendingToolUse := none }
       | none => { st with pendingToolUse := none })
    | none => st
  else if ev.type == "message_start" then
    stopLoading st
  else st

def procEvents (evs : List StreamEvent) (st : TUIState) : TUIState :=
  evs.foldl (fun s e => handleStreamEvent e s) st

/-! ### SDK messages (`handleMessage`), input submission, session -/

inductive SDKMessage where
  | system (subtype : String) (session_id : Option String)
  | stream_event (event : StreamEvent)
  | assistant
  | tool_progress (tool_use_id : Option String) (progress : Option String)
      (is_error : Option Bool)
  | result (total_cost_usd : Option Rat) (duration_ms : Option Rat)
  | other
deriving DecidableEq, Repr

def handleMessage (st : TUIState) (msg : SDKMessage) : TUIState :=
  match msg with
  | SDKMessage.system subtype sid =>
    if subtype == "init" then
      { st with sessionId := sid.getD (""), mq := mqSetSessionId (sid.getD ("")) st.mq }
    else st
  | SDKMessage.stream_event ev => handleStreamEvent ev st
  | SDKMessage.assistant => finishStreaming st
  | SDKMessage.tool_progress tid prog isErr =>
    if optTruthy tid && (prog == some ("done"))
    then showToolComplete (tid.getD ("")) (isErr.getD false) st
    else st
  | SDKMessage.result cost dur =>
    let st1 := stopLoading st
    { st1 with totalCost := cost.getD 0,
               transcript := st1.transcript ++ [Node.resultSummary (cost.getD 0) (dur.getD 0)] }
  | SDKMessage.other => st

/-- `TUIApp.stop`: close the outbound queue, abort the inbound
stream, tear down the terminal. -/
def stopApp (st : TUIState) : TUIState :=
  { st with mq := mqClose st.mq, stopped := true }

def helpText : String :=
  "Commands:\n  /help - Show this help\n  /exit - Exit the session"

/-- JavaScript `String.prototype.trim`: strip leading and trailing
whitespace (the JS whitespace set is approximated by Unicode
whitespace). -/
def jsTrim (s : String) : String :=
  String.mk
    (((s.toList.dropWhile Char.isWhitespace).reverse.dropWhile
        Char.isWhitespace).reverse)

/-- `TUIApp.handleSubmit`: local-command interception, then transcript
echo, loader, and a push onto the outbound queue. -/
def handleSubmit (text : String) (st : TUIState) : TUIState :=
  let trimmed := jsTrim text
  if trimmed == "" then st
  else if trimmed == "/exit" || trimmed == "/quit" || trimmed == "/q" then
    stopApp st
  else if trimmed == "/help" || trimmed == "/?" then
    addMessage helpText st
  else
    let st1 := startLoading (addMessage ("You: " ++ trimmed) st)
    { st1 with mq := mqPush trimmed st1.mq }

structure CLIResult where
  sessionId : String
  totalCostUsd : Rat
  success : Bool
deriving DecidableEq, Repr

def processMessages (msgs : List SDKMessage) (st : TUIState) : TUIState :=
  msgs.foldl handleMessage st

/-- `TUIApp.start`'s non-exceptional path: the inbound stream (a
finite list — it terminates once the session is cancelled or the
conversation ends) is consumed to completion and the result record is
returned with `success: true`.  The `catch` arm — reached only when
the external SDK stream throws — returns the same record with
`success: false` and is modeled separately. -/
def runSession (msgs : List SDKMessage) (st : TUIState) : CLIResult :=
  let st1 := processMessages msgs st
  ⟨st1.sessionId, st1.totalCost, true⟩

/-- `TUIApp.start`'s `catch` arm (external transport failure). -/
def runSessionFailed (msgs : List SDKMessage) (st : TUIState) : CLIResult :=
  let st1 := processMessages msgs st
  ⟨st1.sessionId, st1.totalCost, false⟩

/-! ### Event constructors used by the claims -/

def startTextEvt : StreamEvent :=
  ⟨"content_block_start", some ⟨"text", none, none⟩, none⟩

def startToolEvt (id name : String) : StreamEvent :=
  ⟨"content_block_start", some ⟨"tool_use", some id, some name⟩, none⟩

def textDeltaEvt (s : String) : StreamEvent :=
  ⟨"content_block_delta", none, some ⟨"text_delta", some s, none⟩⟩

def jsonDeltaEvt (s : String) : StreamEvent :=
  ⟨"content_block_delta", none, some ⟨"input_json_delta", none, some s⟩⟩

def stopEvt : StreamEvent :=
  ⟨"content_block_stop", none, none⟩

/-- Concatenation of delta fragments in arrival order. -/
def concatAll : List String → String
  | [] => ""
  | s :: rest => s ++ concatAll rest

/-! ## Helper lemmas -/

theorem listModify_length (f : α → α) (i : Nat) (l : List α) :
    (listModify f i l).length = l.length := by
  induction l generalizing i with
  | nil => cases i <;> rfl
  | cons x xs ih =>
    cases i with
    | zero => rfl
    | succ n => simpa [listModify] using ih n

theorem listModify_oob (f : α → α) (i : Nat) (l : List α) (h : l.length ≤ i) :
    listModify f i l = l := by
  induction l generalizing i with
  | nil => cases i <;> rfl
  | cons x xs ih =>
    cases i with
    | zero => simp at h
    | succ n =>
      simp only [List.length_cons, Nat.succ_le_succ_iff] at h
      simp [listModify, ih n h]

theorem listModify_getD_self (f : α → α) (i : Nat) (l : List α)
    (d : α) (h : i < l.length) :
    (listModify f i l).getD i d = f (l.getD i d) := by
  induction l generalizing i with
  | nil => simp at h
  | cons x xs ih =>
    cases i with
    | zero => rfl
    | succ n =>
      simp only [List.length_cons, Nat.succ_lt_succ_iff] at h
      simpa [listModify] using ih n h

theorem listModify_getD_ne (f : α → α) (i j : Nat) (l : List α)
    (d : α) (h : i ≠ j) :
    (listModify f j l).getD i d = l.getD i d := by
  induction l generalizing i j with
  | nil => cases j <;> rfl
  | cons x xs ih =>
    cases j with
    | zero =>
      cases i with
      | zero => exact absurd rfl h
      | succ n => rfl
    | succ m =>
      cases i with
      | zero => rfl
      | succ n =>
        simpa [listModify] using ih n m (fun hc => h (by rw [hc]))

theorem getD_concat_length (l : List α) (x d : α) :
    (l ++ [x]).getD l.length d = x := by
  simp

theorem getD_append_left (l l2 : List α) (i : Nat) (d : α)
    (h : i < l.length) :
    (l ++ l2).getD i d = l.getD i d := by
  simp [List.getD, List.getElem?_append, h]

theorem markFold_cons (ts : List ToolRec) (p : String × Nat)
    (l : List (String × Nat)) :
    markFold ts (p :: l) = markFold (listModify setDone p.2 ts) l := rfl

theorem markFold_length (l : List (String × Nat)) (ts : List ToolRec) :
    (markFold ts l).length = ts.length := by
  induction l generalizing ts with
  | nil => rfl
  | cons p l ih => rw [markFold_cons, ih, listModify_length]

theorem markFold_keeps_done (l : List (String × Nat)) (ts : List ToolRec)
    (i : Nat) (h : (ts.getD i defTool).status = ToolStatus.done) :
    ((markFold ts l).getD i defTool).status = ToolStatus.done := by
  induction l generalizing ts with
  | nil => exact h
  | cons p l ih =>
    rw [markFold_cons]
    apply ih
    by_cases hij : i = p.2
    · by_cases hb : p.2 < ts.length
      · rw [hij, listModify_getD_self _ _ _ _ hb]
        rfl
      · rw [listModify_oob _ _ _ (Nat.le_of_not_lt hb)]
        exact h
    · rw [listModify_getD_ne _ _ _ _ _ hij]
      exact h

theorem markFold_done_of_mem (l : List (String × Nat)) (ts : List ToolRec)
    (p : String × Nat) (hp : p ∈ l) (hb : p.2 < ts.length) :
    ((markFold ts l).getD p.2 defTool).status = ToolStatus.done := by
  induction l generalizing ts with
  | nil => cases hp
  | cons q l ih =>
    rw [markFold_cons]
    rcases List.mem_cons.mp hp with hq | hq
    · apply markFold_keeps_done
      rw [hq, listModify_getD_self _ _ _ _ (hq ▸ hb)]
      rfl
    · exact ih _ hq (by rw [listModify_length]; exact hb)

theorem mapLookup_mapSet_self (k : String) (v : Nat) (l : List (String × Nat)) :
    mapLookup k (mapSet k v l) = some v := by
  induction l with
  | nil => simp [mapSet, mapLookup]
  | cons p l ih =>
    rcases p with ⟨k2, v2⟩
    by_cases hk : k2 = k
    · simp [mapSet, mapLookup, hk]
    · simp [mapSet, mapLookup, hk, ih]

theorem mapLookup_mapDelete_self (k : String) (l : List (String × Nat)) :
    mapLookup k (mapDelete k l) = none := by
  induction l with
  | nil => rfl
  | cons p l ih =>
    rcases p with ⟨k2, v2⟩
    by_cases hk : k2 = k
    · simp [mapDelete, hk, ih]
    · simp [mapDelete, mapLookup, hk, ih]

/-! ### Single-event reduction lemmas for `handleStreamEvent` -/

theorem handle_startText (st : TUIState) :
    handleStreamEvent startTextEvt st = startStreaming (markAllToolsDone st) := rfl

theorem handle_startTool (st : TUIState) (id name : String)
    (hid : id ≠ "") (hname : name ≠ "") :
    handleStreamEvent (startToolEvt id name) st =
      { showToolStart id name (markAllToolsDone st) with
          pendingToolUse := some ⟨id, name, ""⟩ } := by
  simp only [handleStreamEvent, startToolEvt, optTruthy]
  simp [hid, hname]

theorem handle_textDelta (st : TUIState) (s : String) :
    handleStreamEvent (textDeltaEvt s) st =
      if s = "" then st else appendStreamingText s st := by
  by_cases hs : s = ""
  · simp [handleStreamEvent, textDeltaEvt, optTruthy, hs]
  · simp [handleStreamEvent, textDeltaEvt, optTruthy, hs]

theorem handle_jsonDelta (st : TUIState) (s : String) :
    handleStreamEvent (jsonDeltaEvt s) st =
      if s = "" then st
      else
        match st.pendingToolUse with
        | some p =>
          { st with
              pendingToolUse := some ⟨p.id, p.name, p.inputJson ++ s⟩ }
        | none => st := by
  by_cases hs : s = ""
  · simp [handleStreamEvent, jsonDeltaEvt, optTruthy, hs]
  · simp [handleStreamEvent, jsonDeltaEvt, optTruthy, hs]

theorem handle_stop (st : TUIState) :
    handleStreamEvent stopEvt st =
      match st.pendingToolUse with
      | some p =>
        (match mapLookup p.id st.activeTools with
         | some i =>
           { st with
               toolStore :=
                 listModify (fun t => { t with input := parseJson p.inputJson })
                   i st.toolStore,
               pendingToolUse := none }
         | none => { st with pendingToolUse := none })
      | none => st := rfl

/-! ### Component-preservation lemmas -/

theorem markAllToolsDone_streamStore (st : TUIState) :
    (markAllToolsDone st).streamStore = st.streamStore := by
  by_cases h : st.activeTools.isEmpty <;> simp [markAllToolsDone, h]

theorem markAllToolsDone_currentStreaming (st : TUIState) :
    (markAllToolsDone st).currentStreaming = st.currentStreaming := by
  by_cases h : st.activeTools.isEmpty <;> simp [markAllToolsDone, h]

theorem markAllToolsDone_loading (st : TUIState) :
    (markAllToolsDone st).loading = st.loading := by
  by_cases h : st.activeTools.isEmpty <;> simp [markAllToolsDone, h]

theorem markAllToolsDone_toolStore_length (st : TUIState) :
    (markAllToolsDone st).toolStore.length = st.toolStore.length := by
  by_cases h : st.activeTools.isEmpty <;>
    simp [markAllToolsDone, h, markFold_length]

theorem markAllToolsDone_activeTools (st : TUIState) :
    (markAllToolsDone st).activeTools = [] ∨
      (markAllToolsDone st).activeTools = [] ∧ st.activeTools = [] := by
  by_cases h : st.activeTools.isEmpty
  · right
    exact ⟨by simp [markAllToolsDone, h, List.isEmpty_iff.mp h],
           List.isEmpty_iff.mp h⟩
  · left
    simp [markAllToolsDone, h]

theorem stopLoading_streamStore (st : TUIState) :
    (stopLoading st).streamStore = st.streamStore := by
  by_cases h : st.loading <;> simp [stopLoading, h]

theorem stopLoading_currentStreaming (st : TUIState) :
    (stopLoading st).currentStreaming = st.currentStreaming := by
  by_cases h : st.loading <;> simp [stopLoading, h]

theorem stopLoading_toolStore (st : TUIState) :
    (stopLoading st).toolStore = st.toolStore := by
  by_cases h : st.loading <;> simp [stopLoading, h]

theorem stopLoading_activeTools (st : TUIState) :
    (stopLoading st).activeTools = st.activeTools := by
  by_cases h : st.loading <;> simp [stopLoading, h]

theorem stopLoading_pendingToolUse (st : TUIState) :
    (stopLoading st).pendingToolUse = st.pendingToolUse := by
  by_cases h : st.loading <;> simp [stopLoading, h]

theorem startStreaming_streamStore (st : TUIState) :
    (startStreaming st).streamStore = st.streamStore ++ [""] := by
  simp [startStreaming, stopLoading_streamStore]

theorem startStreaming_currentStreaming (st : TUIState) :
    (startStreaming st).currentStreaming = some st.streamStore.length := by
  simp [startStreaming, stopLoading_streamStore]

theorem appendStreamingText_of_cur (st : TUIState) (s : String) (i : Nat)
    (hcur : st.currentStreaming = some i) :
    appendStreamingText s st =
      { st with streamStore := listModify (fun t => t ++ s) i st.streamStore } := by
  simp [appendStreamingText, hcur]

theorem procEvents_cons (e : StreamEvent) (evs : List StreamEvent)
    (st : TUIState) :
    procEvents (e :: evs) st = procEvents evs (handleStreamEvent e st) := rfl

/-! ## C1 — streamed text accumulation -/

theorem textDeltas_acc (frs : List String) (st : TUIState) (i : Nat)
    (hcur : st.currentStreaming = some i) (hlen : i < st.streamStore.length) :
    (procEvents (frs.map textDeltaEvt) st).currentStreaming = some i ∧
    (procEvents (frs.map textDeltaEvt) st).streamStore.length
      = st.streamStore.length ∧
    (procEvents (frs.map textDeltaEvt) st).streamStore.getD i ("")
      = st.streamStore.getD i ("") ++ concatAll frs := by
  induction frs generalizing st with
  | nil =>
    refine ⟨hcur, rfl, ?_⟩
    simp [procEvents, concatAll, String.append_empty]
  | cons s frs ih =>
    rw [List.map_cons, procEvents_cons, handle_textDelta]
    by_cases hs : s = ""
    · rw [if_pos hs]
      rcases ih st hcur hlen with ⟨h1, h2, h3⟩
      refine ⟨h1, h2, ?_⟩
      rw [h3, hs]
      show st.streamStore.getD i ("") ++ concatAll frs
        = st.streamStore.getD i ("") ++ ("" ++ concatAll frs)
      rw [String.empty_append]
    · rw [if_neg hs, appendStreamingText_of_cur st s i hcur]
      have hlen2 : i < (listModify (fun t => t ++ s) i st.streamStore).length := by
        rw [listModify_length]; exact hlen
      rcases ih { st with streamStore := listModify (fun t => t ++ s) i st.streamStore }
        hcur hlen2 with ⟨h1, h2, h3⟩
      refine ⟨h1, ?_, ?_⟩
      · rw [h2]
        exact listModify_length _ _ _
      · rw [h3]
        show (listModify (fun t => t ++ s) i st.streamStore).getD i ("") ++ concatAll frs
          = st.streamStore.getD i ("") ++ concatAll (s :: frs)
        rw [listModify_getD_self _ _ _ _ hlen]
        show (st.streamStore.getD i ("") ++ s) ++ concatAll frs
          = st.streamStore.getD i ("") ++ (s ++ concatAll frs)
        exact String.append_assoc _ _ _

/-- C1: for every sequence of text-delta events following a
content-start(text) event, the open streamed text block's accumulated
text equals the concatenation of the delta fragments in arrival order
(a falsy empty fragment is skipped by the handler and contributes the
empty string to the concatenation). -/
theorem c1_text_deltas_concatenate (st : TUIState) (frs : List String) :
    (procEvents (startTextEvt :: frs.map textDeltaEvt) st).currentStreaming
      = some st.streamStore.length ∧
    (procEvents (startTextEvt :: frs.map textDeltaEvt) st).streamStore.getD
      st.streamStore.length ("") = concatAll frs := by
  rw [procEvents_cons, handle_startText]
  have hcur : (startStreaming (markAllToolsDone st)).currentStreaming
      = some st.streamStore.length := by
    rw [startStreaming_currentStreaming, markAllToolsDone_streamStore]
  have hss : (startStreaming (markAllToolsDone st)).streamStore
      = st.streamStore ++ [""] := by
    rw [startStreaming_streamStore, markAllToolsDone_streamStore]
  have hlen : st.streamStore.length
      < (startStreaming (markAllToolsDone st)).streamStore.length := by
    rw [hss]; simp
  rcases textDeltas_acc frs _ _ hcur hlen with ⟨h1, _h2, h3⟩
  refine ⟨h1, ?_⟩
  rw [h3, hss, getD_concat_length, String.empty_append]

/-! ## C2 — tool-use start defensively closes running tools -/

theorem showToolStart_fields (idt nm : String) (st : TUIState) :
    (showToolStart idt nm st).toolStore
        = st.toolStore ++ [⟨nm, ToolStatus.running, none⟩] ∧
    (showToolStart idt nm st).activeTools
        = mapSet idt st.toolStore.length st.activeTools ∧
    (showToolStart idt nm st).transcript
        = st.transcript ++ [Node.tool st.toolStore.length] :=
  ⟨rfl, rfl, rfl⟩

/-- C2: processing a content-start event of block kind tool-use (with
truthy id and name, the condition under which the handler creates the
record) first transitions every currently-active tool record to
`done` and empties the active set, then creates the new record in
state `running`, binds it as the only active tool, and opens its
input accumulator. -/
theorem c2_tool_start_closes_running (st : TUIState) (id name : String)
    (hid : id ≠ "") (hname : name ≠ "") :
    (∀ p ∈ st.activeTools, p.2 < st.toolStore.length →
        ((handleStreamEvent (startToolEvt id name) st).toolStore.getD p.2
            defTool).status = ToolStatus.done) ∧
    (handleStreamEvent (startToolEvt id name) st).activeTools
        = [(id, st.toolStore.length)] ∧
    (handleStreamEvent (startToolEvt id name) st).toolStore.getD
        st.toolStore.length defTool = ⟨name, ToolStatus.running, none⟩ ∧
    (handleStreamEvent (startToolEvt id name) st).pendingToolUse
        = some ⟨id, name, ""⟩ := by
  rw [handle_startTool st id name hid hname]
  by_cases h : st.activeTools.isEmpty
  · have he : st.activeTools = [] := List.isEmpty_iff.mp h
    refine ⟨?_, ?_, ?_, rfl⟩
    · intro p hp
      rw [he] at hp
      cases hp
    · simp [showToolStart, markAllToolsDone, h, he, mapSet]
    · simp [showToolStart, markAllToolsDone, h]
  · refine ⟨?_, ?_, ?_, rfl⟩
    · intro p hp hb
      show (((markAllToolsDone st).toolStore
          ++ [(⟨name, ToolStatus.running, none⟩ : ToolRec)]).getD p.2 defTool).status
          = ToolStatus.done
      have hms : (markAllToolsDone st).toolStore = markFold st.toolStore st.activeTools := by
        simp [markAllToolsDone, h]
      rw [hms, getD_append_left _ _ _ _ (by rw [markFold_length]; exact hb)]
      exact markFold_done_of_mem _ _ _ hp hb
    · show mapSet id (markAllToolsDone st).toolStore.length
          (markAllToolsDone st).activeTools = [(id, st.toolStore.length)]
      simp [markAllToolsDone, h, mapSet, markFold_length]
    · show ((markAllToolsDone st).toolStore
          ++ [(⟨name, ToolStatus.running, none⟩ : ToolRec)]).getD st.toolStore.length defTool
          = (⟨name, ToolStatus.running, none⟩ : ToolRec)
      have hms : (markAllToolsDone st).toolStore = markFold st.toolStore st.activeTools := by
        simp [markAllToolsDone, h]
      rw [hms]
      have := getD_concat_length (markFold st.toolStore st.activeTools)
        (⟨name, ToolStatus.running, none⟩ : ToolRec) defTool
      rw [markFold_length] at this
      exact this

/-- A state with one running tool active (as after a tool-use start). -/
def stC2 : TUIState :=
  { initialState with
      toolStore := [⟨"Bash", ToolStatus.running, none⟩],
      activeTools := [("t0", 0)],
      transcript := [Node.tool 0] }

theorem c2_witness :
    ((handleStreamEvent (startToolEvt ("t1") ("Read")) stC2).toolStore.getD 0
        defTool).status = ToolStatus.done ∧
    (handleStreamEvent (startToolEvt ("t1") ("Read")) stC2).activeTools
        = [("t1", 1)] ∧
    (handleStreamEvent (startToolEvt ("t1") ("Read")) stC2).pendingToolUse
        = some ⟨"t1", "Read", ""⟩ := by
  have h := c2_tool_start_closes_running stC2 ("t1") ("Read")
    (by decide) (by decide)
  exact ⟨h.1 ("t0", 0) (by decide) (by decide), h.2.1, h.2.2.2⟩

/-! ## C3 — the end-to-end Read-tool scenario

The source transitions a tool record out of `running` only on an
explicit `tool_progress` completion or on the defensive closure run by
the next content-start; `content_block_stop` parses the accumulated
input and updates the display but leaves the record `running` and
active. -/

def c3Events : List StreamEvent :=
  [startToolEvt ("t1") ("Read"),
   jsonDeltaEvt ("\x7b\x22file_"),
   jsonDeltaEvt ("path\x22:\x22a.ts\x22\x7d"),
   stopEvt]

def c3St : TUIState := procEvents c3Events initialState

/-- C3 counterexample: after the claimed event sequence the single
record for `t1` is still `running` (and still active), not `done`. -/
theorem c3_counterexample :
    c3St.activeTools = [("t1", 0)] ∧
    (c3St.toolStore.getD 0 defTool).status = ToolStatus.running ∧
    (c3St.toolStore.getD 0 defTool).status ≠ ToolStatus.done := by
  exact ⟨rfl, rfl, by decide⟩

def c3Done : TUIState :=
  handleMessage c3St (SDKMessage.tool_progress (some ("t1")) (some ("done")) none)

/-- C3 amended: the event sequence yields exactly one tool invocation
record for `t1`, with input parsed to `file_path: "a.ts"` at
content-stop and displayed as `Read: a.ts`, but in lifecycle state
`running`; the record transitions to `done` (and leaves the active
set) only upon a subsequent explicit completion such as
`toolProgress(t1, done)` (or a later content-start's defensive
closure). -/
theorem c3_amended :
    c3St.toolStore
      = [⟨"Read", ToolStatus.running,
          some (Json.obj [("file_path", Json.str ("a.ts"))])⟩] ∧
    c3St.activeTools = [("t1", 0)] ∧
    c3St.pendingToolUse = none ∧
    toolLine (c3St.toolStore.getD 0 defTool) = "⟳ 📖 Read: a.ts" ∧
    c3Done.toolStore
      = [⟨"Read", ToolStatus.done,
          some (Json.obj [("file_path", Json.str ("a.ts"))])⟩] ∧
    c3Done.activeTools = [] ∧
    toolLine (c3Done.toolStore.getD 0 defTool) = "✓ 📖 Read: a.ts" := by
  exact ⟨rfl, rfl, rfl, rfl, rfl, rfl, rfl⟩

/-! ## C4 — duplicate tool start is not a no-op -/

def stC4 : TUIState :=
  { initialState with
      toolStore := [⟨"Write", ToolStatus.running, none⟩],
      activeTools := [("t1", 0)],
      transcript := [Node.tool 0] }

/-- C4 counterexample: starting a tool whose id is already active is
not a silent no-op — the transcript gains a node and the id is
rebound in the active set. -/
theorem c4_counterexample :
    mapLookup ("t1") stC4.activeTools = some 0 ∧
    (showToolStart ("t1") ("Read") stC4).transcript ≠ stC4.transcript ∧
    (showToolStart ("t1") ("Read") stC4).activeTools ≠ stC4.activeTools := by
  refine ⟨rfl, ?_, ?_⟩ <;> decide

/-- C4 amended: starting a tool invocation whose identifier is
already in the active set raises no error, but instead of being a
no-op it appends a fresh `running` record to the store and the
transcript and rebinds the identifier to the fresh record; the prior
record survives only as a transcript node.  (In the event handler a
duplicate can never be active, because every content-start first
clears the active set.) -/
theorem c4_amended (st : TUIState) (id name : String) (j : Nat)
    (hdup : mapLookup id st.activeTools = some j) (hj : j < st.toolStore.length) :
    (showToolStart id name st).toolStore
        = st.toolStore ++ [⟨name, ToolStatus.running, none⟩] ∧
    mapLookup id (showToolStart id name st).activeTools
        = some st.toolStore.length ∧
    (showToolStart id name st).transcript
        = st.transcript ++ [Node.tool st.toolStore.length] ∧
    (showToolStart id name st).toolStore.getD j defTool
        = st.toolStore.getD j defTool := by
  refine ⟨rfl, ?_, rfl, ?_⟩
  · exact mapLookup_mapSet_self id st.toolStore.length st.activeTools
  · exact getD_append_left _ _ _ _ hj

theorem c4_witness :
    mapLookup ("t1") stC4.activeTools = some 0 ∧
    (0 : Nat) < stC4.toolStore.length ∧
    mapLookup ("t1") (showToolStart ("t1") ("Read") stC4).activeTools = some 1 ∧
    (showToolStart ("t1") ("Read") stC4).transcript
      = [Node.tool 0, Node.tool 1] := by
  have h := c4_amended stC4 ("t1") ("Read") 0 rfl (by decide)
  exact ⟨rfl, by decide, h.2.1, h.2.2.1⟩

/-! ## C5 — tool completion is idempotent and total -/

/-- C5: completing an unknown (never started or already retired)
identifier leaves the state unchanged, and a second completion of the
same identifier is always a no-op: the first completion removes the
id from the active set, so the second finds nothing to do.  This
covers completions racing with defensive bulk-closure (which empties
the active set) and the `toolProgress`-after-`contentBlockStop` pair
(content-stop never removes the id, so the explicit completion still
lands exactly once). -/
theorem c5_completion_idempotent (st : TUIState) (id : String) (e1 e2 : Bool) :
    (mapLookup id st.activeTools = none → showToolComplete id e1 st = st) ∧
    showToolComplete id e2 (showToolComplete id e1 st)
      = showToolComplete id e1 st := by
  constructor
  · intro h
    simp [showToolComplete, h]
  · cases h : mapLookup id st.activeTools with
    | none => simp [showToolComplete, h]
    | some i =>
      simp [showToolComplete, h, mapLookup_mapDelete_self]

theorem c5_witness :
    showToolComplete ("tz") true stC2 = stC2 ∧
    showToolComplete ("t0") false (showToolComplete ("t0") true stC2)
      = showToolComplete ("t0") true stC2 := by
  exact ⟨(c5_completion_idempotent stC2 ("tz") true false).1 rfl,
         (c5_completion_idempotent stC2 ("t0") true false).2⟩

/-! ## C6 — malformed accumulated JSON never crashes the run

The handler wraps the parse in try/catch; in the embedding this is
`parseJson` returning `none`, so the step function is total and every
subsequent event is processed from the resulting state. -/

/-- C6: when the accumulated tool input fails to parse at
content-stop, the pending accumulator is closed, the record (if its
id is still active) is updated with absent parsed input — its status
untouched, in particular not `error` — the transcript and active set
are unchanged, and processing of any subsequent events continues from
the resulting state. -/
theorem c6_malformed_input (st : TUIState) (p : PendingTool)
    (hp : st.pendingToolUse = some p) (hfail : parseJson p.inputJson = none) :
    (handleStreamEvent stopEvt st).pendingToolUse = none ∧
    (handleStreamEvent stopEvt st).activeTools = st.activeTools ∧
    (handleStreamEvent stopEvt st).transcript = st.transcript ∧
    (∀ i, mapLookup p.id st.activeTools = some i →
        (handleStreamEvent stopEvt st).toolStore
          = listModify (fun t => { t with input := none }) i st.toolStore) ∧
    (mapLookup p.id st.activeTools = none →
        handleStreamEvent stopEvt st = { st with pendingToolUse := none }) ∧
    (∀ evs, procEvents (stopEvt :: evs) st
        = procEvents evs (handleStreamEvent stopEvt st)) := by
  refine ⟨?_, ?_, ?_, ?_, ?_, fun evs => rfl⟩
  · rw [handle_stop, hp]
    cases h : mapLookup p.id st.activeTools <;> simp [h]
  · rw [handle_stop, hp]
    cases h : mapLookup p.id st.activeTools <;> simp [h]
  · rw [handle_stop, hp]
    cases h : mapLookup p.id st.activeTools <;> simp [h]
  · intro i hi
    rw [handle_stop, hp]
    simp [hi, hfail]
  · intro hnone
    rw [handle_stop, hp]
    simp [hnone]

def stInvalid : TUIState :=
  procEvents [startToolEvt ("t1") ("Read"), jsonDeltaEvt ("\x7b\x22file_")]
    initialState

theorem c6_witness :
    parseJson ("\x7b\x22file_") = none ∧
    (handleStreamEvent stopEvt stInvalid).pendingToolUse = none ∧
    (handleStreamEvent stopEvt stInvalid).toolStore
      = [⟨"Read", ToolStatus.running, none⟩] := by
  have h := c6_malformed_input stInvalid ⟨"t1", "Read", "\x7b\x22file_"⟩ rfl rfl
  refine ⟨rfl, h.1, ?_⟩
  rw [h.2.2.2.1 0 rfl]
  rfl

/-! ## C10 — at most one pending input accumulator; orphan deltas -/

/-- C10: the decoder keeps at most one pending tool-input accumulator
(the state holds an `Option`, set by the most recent tool-use
content-start and cleared by content-stop), and an input-json-delta
arriving while none is pending is silently discarded — the state is
left entirely unchanged. -/
theorem c10_orphan_json_delta (st : TUIState) (s id name : String) :
    (st.pendingToolUse = none → handleStreamEvent (jsonDeltaEvt s) st = st) ∧
    (id ≠ "" → name ≠ "" →
        (handleStreamEvent (startToolEvt id name) st).pendingToolUse
          = some ⟨id, name, ""⟩) ∧
    (handleStreamEvent stopEvt st).pendingToolUse = none := by
  refine ⟨?_, ?_, ?_⟩
  · intro h
    rw [handle_jsonDelta]
    by_cases hs : s = ""
    · rw [if_pos hs]
    · rw [if_neg hs, h]
  · intro hid hname
    rw [handle_startTool st id name hid hname]
  · rw [handle_stop]
    cases h : st.pendingToolUse with
    | none => simp [h]
    | some p => cases h2 : mapLookup p.id st.activeTools <;> simp [h, h2]

theorem c10_witness :
    handleStreamEvent (jsonDeltaEvt ("x")) initialState = initialState ∧
    (handleStreamEvent (startToolEvt ("t1") ("Read")) initialState).pendingToolUse
      = some ⟨"t1", "Read", ""⟩ ∧
    (handleStreamEvent stopEvt initialState).pendingToolUse = none := by
  have h := c10_orphan_json_delta initialState ("x") ("t1") ("Read")
  exact ⟨h.1 rfl, h.2.1 (by decide) (by decide), h.2.2⟩

/-! ## C7 — closing the outbound queue -/

/-- A queue that still holds a buffered message when it is closed. -/
def mqBuf : MQState := ⟨[mkMessage ("") ("hi")], [], false, "", [], 0⟩

/-- C7 counterexample: `next()` checks the buffer before the `done`
flag, so a consumer arriving after `close()` still receives a message
buffered before the close — not the end-of-stream sentinel. -/
theorem c7_counterexample :
    (mqClose mqBuf).done = true ∧
    (mqNext (mqClose mqBuf)).1
      = NextOutcome.ready (IterResult.value (mkMessage ("") ("hi"))) ∧
    (mqNext (mqClose mqBuf)).1 ≠ NextOutcome.ready IterResult.sentinel := by
  refine ⟨rfl, rfl, ?_⟩
  decide

theorem count_sentinel_map (l : List Nat) (r : Nat) :
    (l.map (fun n => (n, IterResult.sentinel))).count (r, IterResult.sentinel)
      = l.count r := by
  induction l with
  | nil => rfl
  | cons a l ih => simp [List.count_cons, ih]

/-- C7 amended: once the queue is closed, every push is silently
dropped; each consumer waiting at the moment of closing is resolved
with the end-of-stream sentinel exactly once; and later `next()`
calls observe end-of-stream once the messages buffered before the
close are drained — `next()` first returns any buffered message, and
on an empty buffer returns the sentinel and leaves the closed state
unchanged (so every subsequent call observes the sentinel too). -/
theorem c7_close_semantics (st : MQState) (c : String)
    (hnd : st.resolvers.Nodup) :
    mqPush c (mqClose st) = mqClose st ∧
    (mqClose st).resolvers = [] ∧
    (mqClose st).delivered
      = st.delivered ++ st.resolvers.map (fun r => (r, IterResult.sentinel)) ∧
    (∀ r ∈ st.resolvers,
        (mqClose st).delivered.count (r, IterResult.sentinel)
          = st.delivered.count (r, IterResult.sentinel) + 1) ∧
    (∀ m rest, (mqClose st).queue = m :: rest →
        mqNext (mqClose st)
          = (NextOutcome.ready (IterResult.value m),
             { mqClose st with queue := rest })) ∧
    ((mqClose st).queue = [] →
        mqNext (mqClose st) = (NextOutcome.ready IterResult.sentinel, mqClose st)) := by
  refine ⟨?_, rfl, rfl, ?_, ?_, ?_⟩
  · simp [mqPush, mqClose]
  · intro r hr
    show ((st.delivered
        ++ st.resolvers.map (fun r => (r, IterResult.sentinel))).count
          (r, IterResult.sentinel)) = _
    rw [List.count_append, count_sentinel_map, List.count_eq_one_of_mem hnd hr]
  · intro m rest hq
    have hq2 : st.queue = m :: rest := hq
    simp [mqNext, hq2, mqClose]
  · intro hq
    have hq2 : st.queue = [] := hq
    simp [mqNext, hq2, mqClose]

def mqW : MQState := ⟨[], [5], false, "", [], 6⟩

theorem c7_witness :
    mqPush ("x") (mqClose mqW) = mqClose mqW ∧
    (mqClose mqW).resolvers = [] ∧
    (mqClose mqW).delivered = [(5, IterResult.sentinel)] ∧
    (mqClose mqW).delivered.count (5, IterResult.sentinel) = 1 ∧
    mqNext (mqClose mqW) = (NextOutcome.ready IterResult.sentinel, mqClose mqW) := by
  have h := c7_close_semantics mqW ("x") (by decide)
  exact ⟨h.1, h.2.1, h.2.2.1, h.2.2.2.1 5 (by decide), h.2.2.2.2.2 rfl⟩

/-! ## C8 — FIFO delivery before close -/

theorem runOps_push (c : String) (rest : List MQOp) (st : MQState)
    (log : List SDKUserMessage) :
    runOps (MQOp.push c :: rest) st log
      = runOps rest (mqPush c st)
          (log ++ (if st.resolvers.isEmpty then []
                   else [mkMessage st.sessionId c])) := rfl

theorem runOps_next_step (rest : List MQOp) (st : MQState)
    (log : List SDKUserMessage) :
    runOps (MQOp.next :: rest) st log
      = runOps rest (mqNext st).2
          (log ++ (match (mqNext st).1 with
                   | NextOutcome.ready (IterResult.value m) => [m]
                   | _ => [])) := rfl

theorem runOps_delivery (ops : List MQOp) :
    ∀ (st : MQState) (log : List SDKUserMessage),
      st.done = false → (st.resolvers = [] ∨ st.queue = []) →
      (runOps ops st log).2 ++ (runOps ops st log).1.queue
        = log ++ st.queue ++ opsMessages st.sessionId ops := by
  induction ops with
  | nil =>
    intro st log _ _
    simp [runOps, opsMessages]
  | cons op rest ih =>
    intro st log hd hinv
    cases op with
    | push c =>
      cases hr : st.resolvers with
      | nil =>
        have key := ih (mqPush c st)
          (log ++ (if st.resolvers.isEmpty then [] else [mkMessage st.sessionId c]))
          (by simp [mqPush, hd, hr]) (Or.inl (by simp [mqPush, hd, hr]))
        rw [runOps_push, key]
        simp [mqPush, hd, hr, opsMessages, List.append_assoc]
      | cons r rs =>
        have hqe : st.queue = [] := by
          rcases hinv with hinv | hinv
          · rw [hinv] at hr
            cases hr
          · exact hinv
        have key := ih (mqPush c st)
          (log ++ (if st.resolvers.isEmpty then [] else [mkMessage st.sessionId c]))
          (by simp [mqPush, hd, hr]) (Or.inr (by simp [mqPush, hd, hr, hqe]))
        rw [runOps_push, key]
        simp [mqPush, hd, hr, hqe, opsMessages, List.append_assoc]
    | next =>
      cases hq : st.queue with
      | cons m q =>
        have hre : st.resolvers = [] := by
          rcases hinv with hinv | hinv
          · exact hinv
          · rw [hinv] at hq
            cases hq
        have key := ih (mqNext st).2
          (log ++ (match (mqNext st).1 with
                   | NextOutcome.ready (IterResult.value m) => [m]
                   | _ => []))
          (by simp [mqNext, hq, hd]) (Or.inl (by simp [mqNext, hq, hre]))
        rw [runOps_next_step, key]
        simp [mqNext, hq, opsMessages, List.append_assoc]
      | nil =>
        have key := ih (mqNext st).2
          (log ++ (match (mqNext st).1 with
                   | NextOutcome.ready (IterResult.value m) => [m]
                   | _ => []))
          (by simp [mqNext, hq, hd]) (Or.inr (by simp [mqNext, hq, hd]))
        rw [runOps_next_step, key]
        simp [mqNext, hq, hd, opsMessages]

/-- C8: over any interleaving of pushes and consumer reads on a queue
that is never closed, the chronological delivery log concatenated
with the messages still buffered equals exactly the pushed messages
in submission order — so deliveries happen in push order with no
message dropped, duplicated, or reordered. -/
theorem c8_fifo_delivery (ops : List MQOp) :
    (runOps ops mqInit []).2 ++ (runOps ops mqInit []).1.queue
      = opsMessages ("") ops := by
  have h := runOps_delivery ops mqInit [] rfl (Or.inl rfl)
  simpa [mqInit] using h

/-! ## C9 — `/exit` is intercepted locally -/

/-- C9: submitting input that trims to `/exit` never places a message
in the outbound queue — the buffered messages are untouched and the
only deliveries the close adds are end-of-stream sentinels to already
waiting consumers — and it terminates the session: the queue is
closed, the app is stopped, and the session loop, consuming whatever
remains of the inbound stream, returns a result with `success`
`true` (the `catch` arm that reports failure is reached only by an
external transport exception, not by `/exit`). -/
theorem c9_exit_local (st : TUIState) (t : String) (h : jsTrim t = "/exit") :
    (handleSubmit t st).mq.queue = st.mq.queue ∧
    (handleSubmit t st).mq.delivered
      = st.mq.delivered ++ st.mq.resolvers.map (fun r => (r, IterResult.sentinel)) ∧
    (handleSubmit t st).mq.done = true ∧
    (handleSubmit t st).stopped = true ∧
    (∀ msgs, (runSession msgs (handleSubmit t st)).success = true) := by
  have hstep : handleSubmit t st = stopApp st := by
    simp [handleSubmit, h]
  rw [hstep]
  exact ⟨rfl, rfl, rfl, rfl, fun msgs => rfl⟩

theorem c9_witness :
    jsTrim ("  /exit ") = "/exit" ∧
    (handleSubmit ("  /exit ") initialState).mq.queue = [] ∧
    (handleSubmit ("  /exit ") initialState).mq.delivered = [] ∧
    (handleSubmit ("  /exit ") initialState).mq.done = true ∧
    (runSession [SDKMessage.assistant] (handleSubmit ("  /exit ") initialState)).success
      = true := by
  have h := c9_exit_local initialState ("  /exit ") (by decide)
  exact ⟨by decide, h.1, h.2.1, h.2.2.1, h.2.2.2.2 [SDKMessage.assistant]⟩
